import Mathlib

/-!
Verification development for the School-2120 navigator routing core
(`app.py`).  The Python functions `load_data_from_db`, `resolve_selection`,
`filter_graph_by_mobility`, `restrict_to_single_floor`, `find_best_path`
and the distance/time computation are embedded shallowly below: node
identifiers are naturals, edge weights are rationals, the `networkx`
graph becomes a record of a node list, attribute maps and a weighted edge
list, and dictionaries become association lists with last-binding-wins
lookup (Python insertion/overwrite semantics).
-/

namespace Nav2120

abbrev NodeId := Nat

/-- A weighted undirected graph with per-node attributes, embedding the
`networkx.Graph` built by `build_graph`: a node list, the `floor` and
`type` node attributes, and a weighted edge list (later duplicates of an
edge overwrite earlier ones, as `add_weighted_edges_from` does). -/
structure Graph where
  nodes : List NodeId
  floorOf : NodeId → Int
  typeOf : NodeId → String
  edges : List (NodeId × NodeId × ℚ)

/-- Python `str.lower` restricted to the alphabets the data uses:
ASCII `A`-`Z` and Cyrillic `А`-`Я`, `Ё`. -/
def pyLowerChar (c : Char) : Char :=
  if 65 ≤ c.toNat ∧ c.toNat ≤ 90 then Char.ofNat (c.toNat + 32)
  else if 0x410 ≤ c.toNat ∧ c.toNat ≤ 0x42F then Char.ofNat (c.toNat + 32)
  else if c.toNat = 0x401 then Char.ofNat 0x451
  else c

def pyLower (s : String) : String := String.mk (s.data.map pyLowerChar)

/-- `G.subgraph(allowed).copy()`: the node-induced subgraph — nodes of `G`
belonging to `allowed`, edges of `G` with both endpoints in `allowed`;
node attributes are carried over unchanged. -/
def subgraphOn (G : Graph) (allowed : List NodeId) : Graph where
  nodes := G.nodes.filter (fun n => decide (n ∈ allowed))
  floorOf := G.floorOf
  typeOf := G.typeOf
  edges := G.edges.filter (fun e => decide (e.1 ∈ allowed ∧ e.2.1 ∈ allowed))

/-- Weight of the undirected edge between `u` and `v`, if present; the
last matching entry of the edge list wins, mirroring `networkx` edge
overwriting. -/
def edgeWeight (G : Graph) (u v : NodeId) : Option ℚ :=
  G.edges.reverse.findSome? (fun e =>
    if (e.1 = u ∧ e.2.1 = v) ∨ (e.1 = v ∧ e.2.1 = u) then some e.2.2 else none)

/-- `nx.path_weight(G, path, "weight")`: sum of the weights of consecutive
edges along the path (0 for an empty or single-node path). -/
def pathWeight (G : Graph) : List NodeId → ℚ
  | [] => 0
  | [_] => 0
  | u :: v :: rest => (edgeWeight G u v).getD 0 + pathWeight G (v :: rest)

/-- Neighbours of `u` in `G`, in node-list order. -/
def neighbors (G : Graph) (u : NodeId) : List NodeId :=
  G.nodes.filter (fun v => decide ((edgeWeight G u v).isSome = true ∧ v ≠ u))

/-- Depth-first enumeration of the simple paths from `u` to `t` avoiding
`visited`; `fuel` bounds the recursion depth. -/
def simplePathsAux (G : Graph) (t : NodeId) :
    Nat → NodeId → List NodeId → List (List NodeId)
  | 0, u, _ => if u = t then [[u]] else []
  | fuel + 1, u, visited =>
    if u = t then [[u]]
    else
      ((neighbors G u).filter (fun v => decide (v ∉ visited))).flatMap
        (fun v => (simplePathsAux G t fuel v (v :: visited)).map (u :: ·))

/-- All simple paths from `s` to `t` in `G` (empty when either endpoint
is absent). -/
def simplePaths (G : Graph) (s t : NodeId) : List (List NodeId) :=
  if s ∈ G.nodes ∧ t ∈ G.nodes then
    simplePathsAux G t G.nodes.length s [s]
  else []

/-- Select a minimum-weight entry of a path list (first minimum wins). -/
def minWeightPath (G : Graph) (ps : List (List NodeId)) :
    Option (List NodeId × ℚ) :=
  ps.foldl
    (fun best p =>
      match best with
      | none => some (p, pathWeight G p)
      | some (bp, bw) =>
        if pathWeight G p < bw then some (p, pathWeight G p) else some (bp, bw))
    none

/-- Embedding of the `nx.dijkstra_path` call: a minimum-weight path from
`s` to `t` over the graph's simple paths, `none` when no path exists
(the `NetworkXNoPath` outcome). -/
def dijkstraPath (G : Graph) (s t : NodeId) : Option (List NodeId) :=
  (minWeightPath G (simplePaths G s t)).map Prod.fst

/-- The forbidden structural types of `filter_graph_by_mobility`:
staircases in wheelchair (МГН) mode, elevators otherwise. -/
def forbiddenTypes (mgn : Bool) : List String :=
  if mgn then ["лестница", "staircase"] else ["лифт", "elevator"]

/-- `filter_graph_by_mobility(G, mgn)`: keep the nodes whose lowercased
type is not forbidden, and take the induced subgraph. -/
def filter_graph_by_mobility (G : Graph) (mgn : Bool) : Graph :=
  subgraphOn G
    (G.nodes.filter (fun n => decide (pyLower (G.typeOf n) ∉ forbiddenTypes mgn)))

/-- `restrict_to_single_floor(G, floor)`: induced subgraph on the nodes
whose floor attribute equals `floor`. -/
def restrict_to_single_floor (G : Graph) (floor : Int) : Graph :=
  subgraphOn G (G.nodes.filter (fun n => decide (G.floorOf n = floor)))

/-- The Cartesian product `starts × targets` in iteration order of the
two nested loops of `find_best_path`. -/
def examinedPairs (starts targets : List NodeId) : List (NodeId × NodeId) :=
  starts.flatMap (fun s => targets.map (fun t => (s, t)))

/-- One iteration body of `find_best_path` for the pair `(s, t)`: skip
when an endpoint is missing from the mobility-filtered view, choose the
floor-restricted working view when the endpoints share a floor, then run
Dijkstra and weigh the found path; `none` is the skipped/no-path case. -/
def pairResult (G : Graph) (mgn : Bool) (s t : NodeId) :
    Option (List NodeId × ℚ) :=
  let baseG := filter_graph_by_mobility G mgn
  if s ∈ baseG.nodes ∧ t ∈ baseG.nodes then
    let workingG :=
      if G.floorOf s = G.floorOf t then
        restrict_to_single_floor baseG (G.floorOf s)
      else baseG
    match dijkstraPath workingG s t with
    | some p => some (p, pathWeight workingG p)
    | none => none
  else none

/-- Accumulator update of `find_best_path`: a newly found path replaces
the current best only when its weight is strictly smaller
(`if length < best_len`). -/
def bestStep (G : Graph) (mgn : Bool) (acc : Option (List NodeId × ℚ))
    (st : NodeId × NodeId) : Option (List NodeId × ℚ) :=
  match pairResult G mgn st.1 st.2 with
  | none => acc
  | some (p, l) =>
    match acc with
    | none => some (p, l)
    | some (bp, bl) => if l < bl then some (p, l) else some (bp, bl)

/-- The best (path, weight) over all examined pairs, starting from the
empty best (`best_path = None`, `best_len = inf`). -/
def bestResult (G : Graph) (starts targets : List NodeId) (mgn : Bool) :
    Option (List NodeId × ℚ) :=
  (examinedPairs starts targets).foldl (bestStep G mgn) none

/-- `find_best_path(G, starts, targets, mgn)`. -/
def find_best_path (G : Graph) (starts targets : List NodeId) (mgn : Bool) :
    Option (List NodeId) :=
  (bestResult G starts targets mgn).map Prod.fst

/-- A Python dict as an association list in insertion order; lookup takes
the last binding of a key, matching dict overwrite semantics. -/
def dictLookup {α β : Type} [DecidableEq α] (d : List (α × β)) (k : α) :
    Option β :=
  d.foldl (fun acc kv => if kv.1 = k then some kv.2 else acc) none

/-- `resolve_selection(selection, labels, categories)`: an exact label
match returns that single node id; otherwise an exact category match
returns the category's node list; otherwise the empty list.  The
selection is `Option String` because Python allows the `None` key in the
label dict. -/
def resolve_selection (selection : Option String)
    (labels : List (Option String × NodeId))
    (categories : List (String × List NodeId)) : List NodeId :=
  match dictLookup labels selection with
  | some v => [v]
  | none =>
    match selection with
    | none => []
    | some s => (dictLookup categories s).getD []

/-- One row of the `nodes` table as read by `load_data_from_db`
(`SELECT id, x, y, floor, type, label, person FROM nodes`). -/
structure NodeRecord where
  id : NodeId
  x : ℚ
  y : ℚ
  floor : Int
  ntype : Option String
  label : Option String
  person : Option String

/-- Python truthiness of an optional string (`None` and `""` are falsy). -/
def truthy : Option String → Bool
  | none => false
  | some s => s ≠ ""

/-- The key under which `load_data_from_db` stores a node in `labels`:
`label + " " + person` when the label is truthy and the person is not
`None`, otherwise the raw label (possibly `None`). -/
def effectiveKey (r : NodeRecord) : Option String :=
  if truthy r.label ∧ r.person ≠ none then
    some (r.label.getD "" ++ " " ++ r.person.getD "")
  else r.label

/-- The `labels` dict built by the load loop, in record order; a later
record with the same effective key overwrites an earlier one. -/
def buildLabels (records : List NodeRecord) : List (Option String × NodeId) :=
  records.map (fun r => (effectiveKey r, r.id))

/-- Python `round`: round half to even (banker's rounding). -/
def pyRound (q : ℚ) : Int :=
  let f := ⌊q⌋
  let r := q - (f : ℚ)
  if r < 1 / 2 then f
  else if 1 / 2 < r then f + 1
  else if f % 2 = 0 then f else f + 1

/-- The displayed distance: `nx.path_weight(G, path, "weight") // 3.5`
(Python float floor division, i.e. the floor of the quotient). -/
def routeDistanceMeters (G : Graph) (p : List NodeId) : Int :=
  ⌊pathWeight G p / (7 / 2 : ℚ)⌋

/-- The displayed walking time: `round(length / 72)` applied to the
already floor-divided distance, i.e. divide first, round second.  The
telegram-notification site computes `round((length // 3.5) / 72)`, the
same value. -/
def routeEstimatedMinutes (G : Graph) (p : List NodeId) : Int :=
  pyRound ((routeDistanceMeters G p : ℚ) / 72)

/-- Scenario graph of the spec for the mobility filter: A(1, floor 1),
B(2, floor 1, staircase), C(3, floor 2); edges A-B weight 5, B-C
weight 3. -/
def scenarioABC : Graph where
  nodes := [1, 2, 3]
  floorOf := fun n => if n = 3 then 2 else 1
  typeOf := fun n => if n = 2 then "staircase" else "regular"
  edges := [(1, 2, 5), (2, 3, 3)]

/-- Scenario graph of the spec for the floor scoper: D(1) and E(2) on
floor 1 connected only through F(3) on floor 2. -/
def scenarioDEF : Graph where
  nodes := [1, 2, 3]
  floorOf := fun n => if n = 3 then 2 else 1
  typeOf := fun _ => "regular"
  edges := [(1, 3, 4), (3, 2, 4)]

/-- A two-node graph whose single edge weighs 252, for the distance
conversion scenario. -/
def scenarioW252 : Graph where
  nodes := [1, 2]
  floorOf := fun _ => 1
  typeOf := fun _ => "regular"
  edges := [(1, 2, 252)]

/-! ### Helper lemmas -/

theorem mem_subgraphOn_nodes (G : Graph) (allowed : List NodeId) (n : NodeId) :
    n ∈ (subgraphOn G allowed).nodes ↔ n ∈ G.nodes ∧ n ∈ allowed := by
  simp [subgraphOn, List.mem_filter]

theorem mem_filter_mobility_nodes (G : Graph) (mgn : Bool) (n : NodeId) :
    n ∈ (filter_graph_by_mobility G mgn).nodes ↔
      n ∈ G.nodes ∧ pyLower (G.typeOf n) ∉ forbiddenTypes mgn := by
  simp [filter_graph_by_mobility, mem_subgraphOn_nodes, List.mem_filter]

theorem mem_restrict_nodes (G : Graph) (f : Int) (n : NodeId) :
    n ∈ (restrict_to_single_floor G f).nodes ↔ n ∈ G.nodes ∧ G.floorOf n = f := by
  simp [restrict_to_single_floor, mem_subgraphOn_nodes, List.mem_filter]

theorem filter_mobility_typeOf (G : Graph) (mgn : Bool) :
    (filter_graph_by_mobility G mgn).typeOf = G.typeOf := rfl

theorem restrict_floorOf (G : Graph) (f : Int) :
    (restrict_to_single_floor G f).floorOf = G.floorOf := rfl

theorem bestStep_skip (G : Graph) (mgn : Bool) (acc : Option (List NodeId × ℚ))
    (st : NodeId × NodeId) (h : pairResult G mgn st.1 st.2 = none) :
    bestStep G mgn acc st = acc := by
  unfold bestStep
  rw [h]

theorem bestStep_found (G : Graph) (mgn : Bool) (acc : Option (List NodeId × ℚ))
    (st : NodeId × NodeId) (q : List NodeId) (v : ℚ)
    (h : pairResult G mgn st.1 st.2 = some (q, v)) :
    bestStep G mgn acc st =
      match acc with
      | none => some (q, v)
      | some (bp, bl) => if v < bl then some (q, v) else some (bp, bl) := by
  unfold bestStep
  rw [h]

theorem foldl_bestStep_mono (G : Graph) (mgn : Bool) :
    ∀ (l : List (NodeId × NodeId)) (bp : List NodeId) (bl : ℚ),
      ∃ p w, l.foldl (bestStep G mgn) (some (bp, bl)) = some (p, w) ∧ w ≤ bl := by
  intro l
  induction l with
  | nil => exact fun bp bl => ⟨bp, bl, rfl, le_refl _⟩
  | cons st l ih =>
    intro bp bl
    simp only [List.foldl_cons]
    cases hpr : pairResult G mgn st.1 st.2 with
    | none =>
      rw [bestStep_skip G mgn _ st hpr]
      exact ih bp bl
    | some qv =>
      rw [bestStep_found G mgn _ st qv.1 qv.2 (by rw [hpr])]
      by_cases hv : qv.2 < bl
      · simp only [if_pos hv]
        obtain ⟨p, w, hfold, hle⟩ := ih qv.1 qv.2
        exact ⟨p, w, hfold, hle.trans hv.le⟩
      · simp only [if_neg hv]
        exact ih bp bl

theorem foldl_bestStep_min (G : Graph) (mgn : Bool) :
    ∀ (l : List (NodeId × NodeId)) (acc : Option (List NodeId × ℚ))
      (st : NodeId × NodeId), st ∈ l → ∀ (q : List NodeId) (v : ℚ),
      pairResult G mgn st.1 st.2 = some (q, v) →
      ∃ p w, l.foldl (bestStep G mgn) acc = some (p, w) ∧ w ≤ v := by
  intro l
  induction l with
  | nil => intro _ _ h; exact absurd h (List.not_mem_nil _)
  | cons a l ih =>
    intro acc st hst q v h
    simp only [List.foldl_cons]
    rcases List.mem_cons.mp hst with rfl | hmem
    · rw [bestStep_found G mgn acc st q v h]
      cases acc with
      | none => exact foldl_bestStep_mono G mgn l q v
      | some bpl =>
        by_cases hv : v < bpl.2
        · simp only [if_pos hv]
          exact foldl_bestStep_mono G mgn l q v
        · simp only [if_neg hv]
          obtain ⟨p, w, hfold, hle⟩ := foldl_bestStep_mono G mgn l bpl.1 bpl.2
          exact ⟨p, w, hfold, hle.trans (not_lt.mp hv)⟩
    · exact ih (bestStep G mgn acc a) st hmem q v h

theorem foldl_bestStep_source (G : Graph) (mgn : Bool) :
    ∀ (l : List (NodeId × NodeId)) (acc : Option (List NodeId × ℚ))
      (r : List NodeId × ℚ), l.foldl (bestStep G mgn) acc = some r →
      acc = some r ∨ ∃ st ∈ l, pairResult G mgn st.1 st.2 = some r := by
  intro l
  induction l with
  | nil => intro acc r h; exact Or.inl h
  | cons a l ih =>
    intro acc r h
    simp only [List.foldl_cons] at h
    rcases ih (bestStep G mgn acc a) r h with hacc | ⟨st, hst, hpr⟩
    · cases hpr : pairResult G mgn a.1 a.2 with
      | none =>
        rw [bestStep_skip G mgn acc a hpr] at hacc
        exact Or.inl hacc
      | some qv =>
        rw [bestStep_found G mgn acc a qv.1 qv.2 (by rw [hpr])] at hacc
        cases acc with
        | none =>
          exact Or.inr ⟨a, List.mem_cons_self a l, by rw [hpr, ← hacc]⟩
        | some bpl =>
          by_cases hv : qv.2 < bpl.2
          · simp only [if_pos hv] at hacc
            exact Or.inr ⟨a, List.mem_cons_self a l, by rw [hpr, ← hacc]⟩
          · simp only [if_neg hv] at hacc
            exact Or.inl hacc
    · exact Or.inr ⟨st, List.mem_cons_of_mem a hst, hpr⟩

theorem foldl_bestStep_all_none (G : Graph) (mgn : Bool) :
    ∀ (l : List (NodeId × NodeId)) (acc : Option (List NodeId × ℚ)),
      (∀ st ∈ l, pairResult G mgn st.1 st.2 = none) →
      l.foldl (bestStep G mgn) acc = acc := by
  intro l
  induction l with
  | nil => intro acc _; rfl
  | cons a l ih =>
    intro acc h
    simp only [List.foldl_cons]
    rw [bestStep_skip G mgn acc a (h a (List.mem_cons_self a l))]
    exact ih acc (fun st hst => h st (List.mem_cons_of_mem a hst))

theorem simplePathsAux_nodes (G : Graph) (t : NodeId) :
    ∀ (fuel : Nat) (u : NodeId) (visited : List NodeId) (p : List NodeId),
      u ∈ G.nodes → p ∈ simplePathsAux G t fuel u visited →
      ∀ n ∈ p, n ∈ G.nodes := by
  intro fuel
  induction fuel with
  | zero =>
    intro u visited p hu hp n hn
    simp only [simplePathsAux] at hp
    by_cases hut : u = t
    · rw [if_pos hut] at hp
      rcases List.mem_singleton.mp hp with rfl
      rcases List.mem_singleton.mp hn with rfl
      exact hu
    · rw [if_neg hut] at hp
      exact absurd hp (List.not_mem_nil p)
  | succ fuel ih =>
    intro u visited p hu hp n hn
    simp only [simplePathsAux] at hp
    by_cases hut : u = t
    · rw [if_pos hut] at hp
      rcases List.mem_singleton.mp hp with rfl
      rcases List.mem_singleton.mp hn with rfl
      exact hu
    · rw [if_neg hut] at hp
      rcases List.mem_flatMap.mp hp with ⟨v, hv, hpv⟩
      rcases List.mem_map.mp hpv with ⟨p', hp', rfl⟩
      have hvn : v ∈ G.nodes := by
        have := List.mem_filter.mp (List.mem_filter.mp hv).1
        exact this.1
      rcases List.mem_cons.mp hn with rfl | hn'
      · exact hu
      · exact ih v (v :: visited) p' hvn hp' n hn'

theorem simplePaths_nodes (G : Graph) (s t : NodeId) (p : List NodeId)
    (hp : p ∈ simplePaths G s t) : ∀ n ∈ p, n ∈ G.nodes := by
  unfold simplePaths at hp
  by_cases hmem : s ∈ G.nodes ∧ t ∈ G.nodes
  · rw [if_pos hmem] at hp
    exact simplePathsAux_nodes G t G.nodes.length s [s] p hmem.1 hp
  · rw [if_neg hmem] at hp
    exact absurd hp (List.not_mem_nil p)

theorem minWeightPath_source (G : Graph) :
    ∀ (ps : List (List NodeId)) (acc : Option (List NodeId × ℚ))
      (r : List NodeId × ℚ),
      ps.foldl
        (fun best p =>
          match best with
          | none => some (p, pathWeight G p)
          | some (bp, bw) =>
            if pathWeight G p < bw then some (p, pathWeight G p)
            else some (bp, bw)) acc = some r →
      acc = some r ∨ r.1 ∈ ps := by
  intro ps
  induction ps with
  | nil => intro acc r h; exact Or.inl h
  | cons p ps ih =>
    intro acc r h
    simp only [List.foldl_cons] at h
    rcases ih _ r h with hacc | hmem
    · cases acc with
      | none =>
        have h2 : (p, pathWeight G p) = r := Option.some.inj hacc
        exact Or.inr (by rw [← h2]; exact List.mem_cons_self p ps)
      | some bpl =>
        obtain ⟨bp, bw⟩ := bpl
        have h2 : (if pathWeight G p < bw then some (p, pathWeight G p)
            else some (bp, bw)) = some r := hacc
        by_cases hlt : pathWeight G p < bw
        · rw [if_pos hlt] at h2
          have h3 : (p, pathWeight G p) = r := Option.some.inj h2
          exact Or.inr (by rw [← h3]; exact List.mem_cons_self p ps)
        · rw [if_neg hlt] at h2
          exact Or.inl h2
    · exact Or.inr (List.mem_cons_of_mem p hmem)

theorem dijkstraPath_mem (G : Graph) (s t : NodeId) (p : List NodeId)
    (h : dijkstraPath G s t = some p) : p ∈ simplePaths G s t := by
  unfold dijkstraPath minWeightPath at h
  cases hfold : (simplePaths G s t).foldl
      (fun best q =>
        match best with
        | none => some (q, pathWeight G q)
        | some (bp, bw) =>
          if pathWeight G q < bw then some (q, pathWeight G q)
          else some (bp, bw)) none with
  | none =>
    rw [hfold] at h
    simp at h
  | some r =>
    rw [hfold] at h
    have hr : r.1 = p := by simpa using h
    rcases minWeightPath_source G (simplePaths G s t) none r hfold with hacc | hmem
    · simp at hacc
    · rw [← hr]; exact hmem

theorem pairResult_nodes (G : Graph) (mgn : Bool) (s t : NodeId)
    (p : List NodeId) (w : ℚ) (h : pairResult G mgn s t = some (p, w)) :
    ∀ n ∈ p, n ∈ (filter_graph_by_mobility G mgn).nodes := by
  unfold pairResult at h
  by_cases hmem : s ∈ (filter_graph_by_mobility G mgn).nodes ∧
      t ∈ (filter_graph_by_mobility G mgn).nodes
  · rw [if_pos hmem] at h
    set workingG :=
      if G.floorOf s = G.floorOf t then
        restrict_to_single_floor (filter_graph_by_mobility G mgn) (G.floorOf s)
      else filter_graph_by_mobility G mgn with hw
    dsimp only at h
    cases hd : dijkstraPath workingG s t with
    | none => rw [hd] at h; exact absurd h (by simp)
    | some q =>
      rw [hd] at h
      have hq : q = p := by simpa using congrArg (Option.map Prod.fst) h
      subst hq
      intro n hn
      have hnw : n ∈ workingG.nodes :=
        simplePaths_nodes workingG s t q (dijkstraPath_mem workingG s t q hd) n hn
      rw [hw] at hnw
      by_cases hfl : G.floorOf s = G.floorOf t
      · rw [if_pos hfl] at hnw
        exact ((mem_restrict_nodes _ _ n).mp hnw).1
      · rwa [if_neg hfl] at hnw
  · rw [if_neg hmem] at h
    exact absurd h (by simp)

theorem pairResult_same_floor (G : Graph) (mgn : Bool) (s t : NodeId)
    (hfl : G.floorOf s = G.floorOf t) (p : List NodeId) (w : ℚ)
    (h : pairResult G mgn s t = some (p, w)) :
    ∀ n ∈ p, G.floorOf n = G.floorOf s := by
  unfold pairResult at h
  by_cases hmem : s ∈ (filter_graph_by_mobility G mgn).nodes ∧
      t ∈ (filter_graph_by_mobility G mgn).nodes
  · rw [if_pos hmem, if_pos hfl] at h
    set rG := restrict_to_single_floor (filter_graph_by_mobility G mgn)
      (G.floorOf s) with hrG
    dsimp only at h
    cases hd : dijkstraPath rG s t with
    | none => rw [hd] at h; exact absurd h (by simp)
    | some q =>
      rw [hd] at h
      have hq : q = p := by simpa using congrArg (Option.map Prod.fst) h
      subst hq
      intro n hn
      have hnw : n ∈ rG.nodes :=
        simplePaths_nodes rG s t q (dijkstraPath_mem rG s t q hd) n hn
      rw [hrG] at hnw
      exact ((mem_restrict_nodes _ _ n).mp hnw).2
  · rw [if_neg hmem] at h
    exact absurd h (by simp)

theorem dictLookup_eq_getLast {α β : Type} [DecidableEq α]
    (d : List (α × β)) (k : α) :
    dictLookup d k =
      ((d.filter (fun kv => decide (kv.1 = k))).getLast?).map Prod.snd := by
  induction d using List.reverseRecOn with
  | nil => rfl
  | append_singleton l a ih =>
    unfold dictLookup at ih ⊢
    rw [List.foldl_append, List.filter_append]
    simp only [List.foldl_cons, List.foldl_nil]
    by_cases hk : a.1 = k
    · rw [if_pos hk]
      simp [hk]
    · rw [if_neg hk]
      simp only [List.filter_cons, List.filter_nil, decide_eq_true_eq]
      rw [if_neg hk, List.append_nil]
      exact ih

/-! ### Claim theorems

The `Rat` arithmetic operations are `@[irreducible]` in Batteries; the
scenario conjuncts below evaluate concrete rational path weights, so the
operations are made semireducible for elaboration inside this section
(kernel checking is unaffected). -/

section ClaimTheorems

set_option allowUnsafeReducibility true
attribute [local semireducible] Rat.add Rat.mul Rat.sub Rat.inv Rat.div

/-- C1: over the filtered/scoped views, `find_best_path` returns a
minimum-weight choice among all examined (start, target) pairs — the
returned best weight is ≤ the weight computed for every examined pair
that produced a path — and an equal-weight path found later never
replaces the current best (first pair in Cartesian-product order wins
ties). -/
theorem C1_best_is_min_and_first_tie_wins (G : Graph)
    (starts targets : List NodeId) (mgn : Bool) :
    (∀ st ∈ examinedPairs starts targets, ∀ (q : List NodeId) (v : ℚ),
        pairResult G mgn st.1 st.2 = some (q, v) →
        ∃ p w, bestResult G starts targets mgn = some (p, w) ∧
          find_best_path G starts targets mgn = some p ∧ w ≤ v) ∧
    (∀ (st : NodeId × NodeId) (bp q : List NodeId) (bl v : ℚ),
        pairResult G mgn st.1 st.2 = some (q, v) → bl ≤ v →
        bestStep G mgn (some (bp, bl)) st = some (bp, bl)) := by
  constructor
  · intro st hst q v h
    obtain ⟨p, w, hfold, hle⟩ :=
      foldl_bestStep_min G mgn (examinedPairs starts targets) none st hst q v h
    refine ⟨p, w, hfold, ?_, hle⟩
    unfold find_best_path
    rw [show bestResult G starts targets mgn = some (p, w) from hfold]
    rfl
  · intro st bp q bl v h hle
    rw [bestStep_found G mgn _ st q v h]
    exact if_neg (not_lt.mpr hle)

theorem C1_witness :
    (∃ p w, bestResult scenarioABC [1] [3] false = some (p, w) ∧
        find_best_path scenarioABC [1] [3] false = some p ∧ w ≤ 8) ∧
    bestStep scenarioABC false (some ([9], 8)) (1, 3) = some ([9], 8) :=
  ⟨(C1_best_is_min_and_first_tie_wins scenarioABC [1] [3] false).1 (1, 3)
      (by decide) [1, 2, 3] 8 (by decide),
   (C1_best_is_min_and_first_tie_wins scenarioABC [1] [3] false).2 (1, 3)
      [9] [1, 2, 3] 8 8 (by decide) (by decide)⟩

/-- C2: `filter_graph_by_mobility` keeps exactly the nodes whose
lowercased type avoids the mode's forbidden synonyms (staircases in
wheelchair mode, elevators otherwise), drops edges incident to excluded
nodes, and on the A-B-C scenario graph yields no path in wheelchair mode
and the path `[A, B, C]` of weight 8 otherwise. -/
theorem C2_mobility_filter_excludes_exactly :
    (∀ (G : Graph) (mgn : Bool) (n : NodeId),
        n ∈ (filter_graph_by_mobility G mgn).nodes ↔
          n ∈ G.nodes ∧ pyLower (G.typeOf n) ∉ forbiddenTypes mgn) ∧
    (∀ (G : Graph) (mgn : Bool) (e : NodeId × NodeId × ℚ),
        e ∈ (filter_graph_by_mobility G mgn).edges ↔
          e ∈ G.edges ∧
          (e.1 ∈ G.nodes ∧ pyLower (G.typeOf e.1) ∉ forbiddenTypes mgn) ∧
          (e.2.1 ∈ G.nodes ∧
            pyLower (G.typeOf e.2.1) ∉ forbiddenTypes mgn)) ∧
    forbiddenTypes true = ["лестница", "staircase"] ∧
    forbiddenTypes false = ["лифт", "elevator"] ∧
    find_best_path scenarioABC [1] [3] true = none ∧
    find_best_path scenarioABC [1] [3] false = some [1, 2, 3] ∧
    pathWeight scenarioABC [1, 2, 3] = 8 := by
  refine ⟨fun G mgn n => mem_filter_mobility_nodes G mgn n, ?_, rfl, rfl,
    by decide, by decide, by decide⟩
  intro G mgn e
  simp [filter_graph_by_mobility, subgraphOn, List.mem_filter]

/-- C3: a path returned by `find_best_path` contains no node excluded by
the active accessibility filter: every node on it has a structural type
outside the forbidden set of the mobility mode. -/
theorem C3_no_forbidden_node_on_path (G : Graph)
    (starts targets : List NodeId) (mgn : Bool) (p : List NodeId)
    (h : find_best_path G starts targets mgn = some p) :
    ∀ n ∈ p, pyLower (G.typeOf n) ∉ forbiddenTypes mgn := by
  unfold find_best_path at h
  cases hbr : bestResult G starts targets mgn with
  | none => rw [hbr] at h; simp at h
  | some r =>
    rw [hbr] at h
    have hr : r.1 = p := by simpa using h
    unfold bestResult at hbr
    rcases foldl_bestStep_source G mgn _ none r hbr with hacc | ⟨st, _, hpr⟩
    · simp at hacc
    · intro n hn
      have hmem := pairResult_nodes G mgn st.1 st.2 r.1 r.2 hpr n
        (by rw [hr]; exact hn)
      exact ((mem_filter_mobility_nodes G mgn n).mp hmem).2

theorem C3_witness :
    pyLower (scenarioABC.typeOf 2) ∉ forbiddenTypes false :=
  C3_no_forbidden_node_on_path scenarioABC [1] [3] false [1, 2, 3]
    (by decide) 2 (by decide)

/-- C4: absence of a path is a value, not an error: a pair with no path
or with an endpoint missing from the filtered view is skipped and the
fold continues, and when no examined pair produces a path (in particular
when `starts` or `targets` is empty) `find_best_path` returns `none`. -/
theorem C4_absence_is_value (G : Graph) (mgn : Bool) :
    (∀ starts targets : List NodeId,
        (∀ st ∈ examinedPairs starts targets,
          pairResult G mgn st.1 st.2 = none) →
        find_best_path G starts targets mgn = none) ∧
    (∀ (l1 l2 : List (NodeId × NodeId)) (st : NodeId × NodeId)
        (acc : Option (List NodeId × ℚ)),
        pairResult G mgn st.1 st.2 = none →
        (l1 ++ st :: l2).foldl (bestStep G mgn) acc =
          (l1 ++ l2).foldl (bestStep G mgn) acc) ∧
    (∀ s t : NodeId,
        s ∉ (filter_graph_by_mobility G mgn).nodes ∨
          t ∉ (filter_graph_by_mobility G mgn).nodes →
        pairResult G mgn s t = none) ∧
    (∀ targets : List NodeId, find_best_path G [] targets mgn = none) ∧
    (∀ starts : List NodeId, find_best_path G starts [] mgn = none) := by
  refine ⟨?_, ?_, ?_, fun _ => rfl, ?_⟩
  · intro starts targets h
    unfold find_best_path bestResult
    rw [foldl_bestStep_all_none G mgn _ none h]
    rfl
  · intro l1 l2 st acc h
    rw [List.foldl_append, List.foldl_append, List.foldl_cons,
      bestStep_skip G mgn _ st h]
  · intro s t h
    unfold pairResult
    dsimp only
    rw [if_neg (fun hc => h.elim (fun hs => hs hc.1) (fun ht => ht hc.2))]
  · intro starts
    unfold find_best_path bestResult
    rw [show examinedPairs starts [] = [] by simp [examinedPairs]]
    rfl

theorem C4_witness : find_best_path scenarioABC [1] [3] true = none :=
  (C4_absence_is_value scenarioABC true).1 [1] [3] (by decide)

/-- C5: a pair of same-floor endpoints is searched only inside the
floor-restricted view (so every node of a path found for it lies on that
floor), a pair on different floors is searched in the unrestricted
mobility-filtered view, and on the D-E-F scenario graph the same-floor
pair D→E reports no path even though the unrestricted filtered graph
contains the path D-F-E. -/
theorem C5_same_floor_scoped (G : Graph) (mgn : Bool) :
    (∀ s t : NodeId, G.floorOf s = G.floorOf t →
        ∀ (p : List NodeId) (w : ℚ), pairResult G mgn s t = some (p, w) →
        ∀ n ∈ p, G.floorOf n = G.floorOf s) ∧
    (∀ s t : NodeId, G.floorOf s ≠ G.floorOf t →
        s ∈ (filter_graph_by_mobility G mgn).nodes →
        t ∈ (filter_graph_by_mobility G mgn).nodes →
        pairResult G mgn s t =
          match dijkstraPath (filter_graph_by_mobility G mgn) s t with
          | some p => some (p, pathWeight (filter_graph_by_mobility G mgn) p)
          | none => none) ∧
    find_best_path scenarioDEF [1] [2] false = none ∧
    dijkstraPath (filter_graph_by_mobility scenarioDEF false) 1 2 =
      some [1, 3, 2] := by
  refine ⟨?_, ?_, by decide, by decide⟩
  · intro s t hfl p w h
    exact pairResult_same_floor G mgn s t hfl p w h
  · intro s t hfl hs ht
    unfold pairResult
    dsimp only
    rw [if_pos ⟨hs, ht⟩, if_neg hfl]

theorem C5_witness : scenarioABC.floorOf 2 = scenarioABC.floorOf 1 :=
  (C5_same_floor_scoped scenarioABC false).1 1 2 (by decide) [1, 2] 5
    (by decide) 2 (by decide)

/-- C6: the displayed distance is the floor division of the summed edge
weights by 3.5 and the estimated minutes are the Python rounding of
(meters / 72), computed in that order; a summed weight of 252 yields
72 meters and 1 minute. -/
theorem C6_distance_time_estimation (G : Graph) (p : List NodeId) :
    routeDistanceMeters G p = ⌊pathWeight G p / (7 / 2 : ℚ)⌋ ∧
    routeEstimatedMinutes G p =
      pyRound ((⌊pathWeight G p / (7 / 2 : ℚ)⌋ : ℚ) / 72) ∧
    (pathWeight G p = 252 →
        routeDistanceMeters G p = 72 ∧ routeEstimatedMinutes G p = 1) := by
  refine ⟨rfl, rfl, fun h => ⟨?_, ?_⟩⟩
  · unfold routeDistanceMeters
    rw [h]
    decide
  · unfold routeEstimatedMinutes routeDistanceMeters
    rw [h]
    decide

theorem C6_witness :
    pathWeight scenarioW252 [1, 2] = 252 ∧
    routeDistanceMeters scenarioW252 [1, 2] = 72 ∧
    routeEstimatedMinutes scenarioW252 [1, 2] = 1 :=
  ⟨by decide, (C6_distance_time_estimation scenarioW252 [1, 2]).2.2 (by decide)⟩

/-- C7: `resolve_selection` returns the single node id of an exact label
match (label match takes precedence even when the selection is also a
category name), else the node ids of an exact category match, else the
empty list; being a pure function it is deterministic across calls and
does no partial matching. -/
theorem C7_resolve_selection_precedence (sel : Option String)
    (labels : List (Option String × NodeId))
    (cats : List (String × List NodeId)) :
    (∀ v, dictLookup labels sel = some v →
        resolve_selection sel labels cats = [v]) ∧
    (∀ (s : String) (ids : List NodeId), dictLookup labels sel = none →
        sel = some s → dictLookup cats s = some ids →
        resolve_selection sel labels cats = ids) ∧
    (dictLookup labels sel = none →
        (∀ s : String, sel = some s → dictLookup cats s = none) →
        resolve_selection sel labels cats = []) := by
  refine ⟨?_, ?_, ?_⟩
  · intro v h
    unfold resolve_selection
    rw [h]
  · intro s ids h hsel hc
    subst hsel
    unfold resolve_selection
    rw [h]
    show (dictLookup cats s).getD [] = ids
    rw [hc]
    rfl
  · intro h hc
    unfold resolve_selection
    rw [h]
    cases sel with
    | none => rfl
    | some s =>
      show (dictLookup cats s).getD [] = []
      rw [hc s rfl]
      rfl

theorem C7_witness :
    resolve_selection (some "Elevator") [(some "Elevator", 5)]
        [("Elevator", [7, 8])] = [5] ∧
    resolve_selection (some "Staircase") [(some "Elevator", 5)]
        [("Staircase", [7, 8])] = [7, 8] ∧
    resolve_selection (some "x") [(some "Elevator", 5)]
        [("Staircase", [7, 8])] = [] :=
  ⟨(C7_resolve_selection_precedence (some "Elevator") _ _).1 5 (by decide),
   (C7_resolve_selection_precedence (some "Staircase") _ _).2.1 "Staircase"
      [7, 8] (by decide) rfl (by decide),
   (C7_resolve_selection_precedence (some "x") _ _).2.2 (by decide)
      (fun s hs => by obtain rfl := Option.some.inj hs; decide)⟩

/-- C8: `restrict_to_single_floor` returns exactly the nodes of the view
on the requested floor: no outside node is introduced and every node of
the view on that floor is retained. -/
theorem C8_restrict_floor_exact (G : Graph) (f : Int) (n : NodeId) :
    n ∈ (restrict_to_single_floor G f).nodes ↔
      n ∈ G.nodes ∧ G.floorOf n = f :=
  mem_restrict_nodes G f n

/-- C9: the accessibility filter is idempotent: filtering an
already-filtered view again with the same mode leaves the node set
unchanged. -/
theorem C9_filter_idempotent (G : Graph) (mgn : Bool) :
    (filter_graph_by_mobility (filter_graph_by_mobility G mgn) mgn).nodes =
      (filter_graph_by_mobility G mgn).nodes := by
  have hq : ∀ n ∈ (filter_graph_by_mobility G mgn).nodes,
      decide (pyLower (G.typeOf n) ∉ forbiddenTypes mgn) = true := by
    intro n hn
    exact decide_eq_true ((mem_filter_mobility_nodes G mgn n).mp hn).2
  show (filter_graph_by_mobility G mgn).nodes.filter
      (fun n => decide (n ∈ (filter_graph_by_mobility G mgn).nodes.filter
        (fun n => decide (pyLower (G.typeOf n) ∉ forbiddenTypes mgn)))) =
    (filter_graph_by_mobility G mgn).nodes
  rw [List.filter_eq_self.mpr hq]
  exact List.filter_eq_self.mpr (fun n hn => decide_eq_true hn)

/-- C10: the label index keeps, per effective label, the id of the last
record producing that label (earlier ids are overwritten); a record with
a null label is stored under the null key, so a null selection can
resolve to a node id. -/
theorem C10_label_last_wins (records : List NodeRecord) (k : Option String) :
    dictLookup (buildLabels records) k =
      ((records.filter (fun r => decide (effectiveKey r = k))).getLast?).map
        NodeRecord.id ∧
    (∀ r : NodeRecord, r.label = none → effectiveKey r = none) ∧
    (∀ (cats : List (String × List NodeId)) (i : NodeId),
        dictLookup (buildLabels records) none = some i →
        resolve_selection none (buildLabels records) cats = [i]) := by
  refine ⟨?_, ?_, ?_⟩
  · rw [dictLookup_eq_getLast]
    unfold buildLabels
    rw [List.filter_map, List.getLast?_map, Option.map_map]
    rfl
  · intro r h
    unfold effectiveKey
    rw [h]
    simp [truthy]
  · intro cats i h
    unfold resolve_selection
    rw [h]

theorem C10_witness :
    resolve_selection none
      (buildLabels [⟨1, 0, 0, 1, none, some "к101", none⟩,
        ⟨3, 0, 0, 1, none, none, some "Иванов"⟩]) [] = [3] :=
  (C10_label_last_wins [⟨1, 0, 0, 1, none, some "к101", none⟩,
      ⟨3, 0, 0, 1, none, none, some "Иванов"⟩] none).2.2 [] 3 (by decide)

end ClaimTheorems

end Nav2120
